import Mathlib

/-!
Shallow embedding of the kadeu flashcard program (src/game/mod.rs, src/ui.rs,
src/main.rs) and proofs of the specification claims about it.

Conventions of the embedding:
* Rust structs become Lean structures with the same field names.
* Methods taking `&self` become pure functions `T → result`; methods taking
  `&mut self` or consuming builders become functions `T → T`.
* The terminal buffer is modelled as a total function from cell coordinates
  to an abstract cell content.
* Behaviour of the external `ratatui` library calls used by the code
  (`Layout::split` with `Ratio` constraints, `Flex::Center` centering,
  `Block::bordered` rendering) is modelled by explicit Lean functions,
  documented at their definitions.
* Parts of the crate referenced by the code but absent from `src/`
  (the `Linear` sequencer, the session engine module) are modelled from the
  spec; their doc comments start with "Modelled from the spec:".
-/

namespace Kadeu

/-! ## Score and Progress (src/game/mod.rs) -/

/-- `Score` from src/game/mod.rs: closed tag {Hit, Miss}. -/
inductive Score where
  | hit
  | miss
deriving DecidableEq, Repr

/-- `Progress<T>` from src/game/mod.rs: an item with an optional score. -/
structure Progress (T : Type) where
  item : T
  score : Option Score

/-- `Progress::has_score` from src/game/mod.rs. -/
def Progress.has_score (p : Progress T) : Bool :=
  p.score.isSome

/-- `Progress::score` from src/game/mod.rs (returns `Option<&Score>`;
    modelled as returning the optional score value, mirroring the
    `if let Some(score) = &self.score` branch structure). -/
def Progress.score_fn (p : Progress T) : Option Score :=
  match p.score with
  | some s => some s
  | none => none

/-- The operations the source defines on a `Progress` value; both take
    `&self` in the Rust code. -/
inductive ProgressOp where
  | hasScoreOp
  | scoreOp

/-- Result type of running one `Progress` operation. -/
inductive ProgressResult where
  | boolRes (b : Bool)
  | optRes (o : Option Score)
deriving DecidableEq

/-- Running one of the source's `Progress` operations: each returns its
    result and (being an `&self` method) the unchanged value. -/
def Progress.runOp : ProgressOp → Progress T → ProgressResult × Progress T
  | .hasScoreOp, p => (.boolRes p.has_score, p)
  | .scoreOp, p => (.optRes p.score_fn, p)

/-! ## The Linear sequencer (referenced from src/main.rs; its module
    `kadeu::sequences` is not under src/) -/

/-- Modelled from the spec: the `Linear` sequencing strategy
    (`kadeu::sequences::Linear`, used by `main` but whose defining module is
    missing from `src/`). It owns a card collection and yields the cards in
    original collection order, one per produce-next call, then signals
    exhaustion (`none`), which is a normal terminal condition, not an error. -/
structure Linear (α : Type) where
  cards : List α

/-- Modelled from the spec: `Linear::new` takes ownership of the collection. -/
def Linear.new (cards : List α) : Linear α :=
  ⟨cards⟩

/-- Modelled from the spec: one produce-next call. Yields the next card and
    the advanced sequencer state, or `none` once exhausted. -/
def Linear.next : Linear α → Option (α × Linear α)
  | ⟨[]⟩ => none
  | ⟨c :: rest⟩ => some (c, ⟨rest⟩)

/-- All cards produced by driving the sequencer to exhaustion (the
    `for card in sequence` loop of src/main.rs). -/
def Linear.yields : Linear α → List α
  | ⟨[]⟩ => []
  | ⟨c :: rest⟩ => c :: Linear.yields ⟨rest⟩

/-- The sequencer state after `k` produce-next calls (a call on an exhausted
    sequencer leaves it exhausted). -/
def Linear.consume : Linear α → Nat → Linear α
  | s, 0 => s
  | s, k + 1 =>
    match s.next with
    | none => s
    | some (_, s2) => Linear.consume s2 k

/-! ## CardSide (src/ui.rs) -/

/-- `CardSide` from src/ui.rs. -/
structure CardSide where
  deck_title : Option String
  front : String
  back : String
  revealed : Bool
deriving DecidableEq

/-- `CardSide::new` from src/ui.rs. -/
def CardSide.new (front back : String) : CardSide :=
  { deck_title := none, front := front, back := back, revealed := false }

/-- `CardSide::with_title` from src/ui.rs. -/
def CardSide.with_title (c : CardSide) (title : String) : CardSide :=
  { c with deck_title := some title }

/-- `CardSide::reveal` from src/ui.rs. -/
def CardSide.reveal (c : CardSide) : CardSide :=
  { c with revealed := true }

/-- `CardSide::is_revealed` from src/ui.rs. -/
def CardSide.is_revealed (c : CardSide) : Bool :=
  c.revealed

/-- The content a `CardSide` displays: the `let content = if
    self.is_revealed() { self.back } else { self.front }` selection of its
    `Widget::render` impl in src/ui.rs. -/
def CardSide.displayedContent (c : CardSide) : String :=
  if c.is_revealed then c.back else c.front

/-! ## Geometry and buffer (models of `ratatui::layout::Rect` and
    `ratatui::buffer::Buffer`) -/

/-- `ratatui::layout::Rect` with `Nat` coordinates. -/
structure Rect where
  x : Nat
  y : Nat
  width : Nat
  height : Nat
deriving DecidableEq, Repr

/-- One terminal cell's content, abstracted: untouched/empty, a content
    character, or a border glyph (all border line/corner glyphs are
    identified). -/
inductive Cell where
  | empty
  | char (c : Char)
  | border
deriving DecidableEq, Repr

/-- The terminal buffer: cell content at each (x, y) coordinate. -/
def Buffer : Type := Nat → Nat → Cell

/-- A buffer with every cell untouched. -/
def emptyBuf : Buffer := fun _ _ => Cell.empty

/-- Whether (x, y) lies inside the rectangle. -/
def Rect.containsPt (r : Rect) (x y : Nat) : Bool :=
  decide (r.x ≤ x ∧ x < r.x + r.width ∧ r.y ≤ y ∧ y < r.y + r.height)

/-- Whether (x, y) lies on the rectangle's border frame (its perimeter):
    the cells `ratatui::widgets::Block::bordered()` draws when rendered
    into `r`. -/
def Rect.isFramePt (r : Rect) (x y : Nat) : Bool :=
  r.containsPt x y &&
    decide (x = r.x ∨ x + 1 = r.x + r.width ∨ y = r.y ∨ y + 1 = r.y + r.height)

/-- The glyph a bordered `Block` (optionally titled) puts at a frame cell:
    `ratatui` draws the title's characters into the top border row starting
    one cell after the corner, clipped to the inner width; every other frame
    cell gets a border glyph. -/
def blockCellAt (r : Rect) (title : Option String) (x y : Nat) : Cell :=
  match title with
  | some s =>
    if decide (y = r.y ∧ r.x + 1 ≤ x ∧ x < r.x + 1 + min s.data.length (r.width - 2)) then
      Cell.char (s.data.getD (x - (r.x + 1)) ' ')
    else Cell.border
  | none => Cell.border

/-- Model of rendering `Block::bordered()` (with optional `.title(...)`)
    into `r`: frame cells are overwritten with the block's glyphs, all other
    cells keep their previous content. -/
def renderBlock (r : Rect) (title : Option String) (buf : Buffer) : Buffer :=
  fun x y => if r.isFramePt x y then blockCellAt r title x y else buf x y

/-- Model of rendering a one-line `ratatui::text::Text` into `r`: its
    characters occupy row `r.y` from column `r.x` on, clipped to the
    rectangle's width; nothing is drawn into a degenerate rectangle. -/
def renderStringInto (s : String) (r : Rect) (buf : Buffer) : Buffer :=
  fun x y =>
    if decide (y = r.y ∧ 0 < r.height ∧ r.x ≤ x ∧ x < r.x + min s.data.length r.width) then
      Cell.char (s.data.getD (x - r.x) ' ')
    else buf x y

/-- The `center` helper of src/ui.rs, for the `Constraint::Length` pair the
    code passes it: a `Flex::Center` layout gives the single
    `Length`-constrained segment its requested size clamped to the
    available space, splitting the leftover space evenly (flooring on the
    leading side) — modelled from `ratatui`'s `Flex::Center` semantics. -/
def center (area : Rect) (w h : Nat) : Rect :=
  let cw := min w area.width
  let ch := min h area.height
  { x := area.x + (area.width - cw) / 2
    y := area.y + (area.height - ch) / 2
    width := cw
    height := ch }

/-! ## The Text leaf widget (src/ui.rs) -/

/-- `Text` from src/ui.rs. -/
structure Text where
  text : String
  centered : Bool
  bordered : Bool
  border_title : Option String
  border_styles : List String

/-- `Text::default()` (all fields defaulted). -/
def Text.defaultT : Text :=
  { text := "", centered := false, bordered := false
    border_title := none, border_styles := [] }

/-- `Text::new` from src/ui.rs: default, then the text set. -/
def Text.new (s : String) : Text :=
  { Text.defaultT with text := s }

/-- `Text::centered` builder from src/ui.rs (named `setCentered` here
    because the field is already called `centered`). -/
def Text.setCentered (t : Text) : Text :=
  { t with centered := true }

/-- `Text::bordered` builder from src/ui.rs (named `setBordered` here
    because the field is already called `bordered`). -/
def Text.setBordered (t : Text) (styles : List String) : Text :=
  { t with bordered := true, border_styles := styles }

/-- `Text::with_border_title` from src/ui.rs. -/
def Text.with_border_title (t : Text) (title : String) : Text :=
  { t with border_title := some title }

/-- The width `ratatui::text::Text::width()` measures for the one-line
    strings the program displays: the character count. -/
def textWidth (s : String) : Nat :=
  s.data.length

/-- The `impl Widget for Text` render of src/ui.rs: compute the centered
    sub-rectangle if `centered`, draw the content there, and only then — if
    `bordered` — draw the (optionally titled) block over the full area. -/
def Text.renderW (t : Text) (area : Rect) (buf : Buffer) : Buffer :=
  let centerArea := if t.centered then center area (textWidth t.text) 1 else area
  let buf1 := renderStringInto t.text centerArea buf
  if t.bordered then renderBlock area t.border_title buf1 else buf1

/-- Whether (x, y) is one of the cells the centered one-line content
    sub-rectangle of `t`'s render covers (the draw condition of
    `renderStringInto` at the `center`ed rectangle). -/
def centerContentCell (t : Text) (area : Rect) (x y : Nat) : Bool :=
  let ca := center area (textWidth t.text) 1
  decide (y = ca.y ∧ 0 < ca.height ∧ ca.x ≤ x ∧
    x < ca.x + min t.text.data.length ca.width)

/-- The `Text` value that `impl Widget for CardSide` in src/ui.rs builds:
    `Text::new(&content).bordered(&[]).centered()`, plus
    `.with_border_title(title)` when a deck title is present. -/
def CardSide.toText (c : CardSide) : Text :=
  let base := (Text.new c.displayedContent).setBordered [] |>.setCentered
  match c.deck_title with
  | some title => base.with_border_title title
  | none => base

/-- The `impl Widget for CardSide` render of src/ui.rs. -/
def CardSide.renderW (c : CardSide) (area : Rect) (buf : Buffer) : Buffer :=
  Text.renderW c.toText area buf

/-! ## The Container composite widget (src/ui.rs) -/

/-- `ratatui::layout::Direction`. -/
inductive Direction where
  | horizontal
  | vertical
deriving DecidableEq

/-- `Container<T>` from src/ui.rs: an ordered list of (boxed) children. -/
structure Container (T : Type) where
  elements : List T

/-- `Container::default()` from src/ui.rs. -/
def Container.defaultC : Container T :=
  ⟨[]⟩

/-- `Container::push` from src/ui.rs. -/
def Container.push (c : Container T) (widget : T) : Container T :=
  ⟨c.elements ++ [widget]⟩

/-- The segment lengths `ratatui`'s `Layout::split` produces for `n`
    `Constraint::Ratio(1, n)` constraints over a length `total` — modelled
    from the spec's partition contract (equal shares, remainder spread so
    the pieces sum exactly to `total` and differ by at most one): segment
    `i` gets `total*(i+1)/n - total*i/n`. -/
def ratioSplit (total n : Nat) : List Nat :=
  (List.range n).map (fun i => total * (i + 1) / n - total * i / n)

/-- The `i`-th of the `n` regions `Container::grid(direction, n)`'s layout
    splits `area` into: consecutive segments along the chosen axis with the
    `ratioSplit` lengths, spanning the full area in the other axis. -/
def regionAt (d : Direction) (area : Rect) (n i : Nat) : Rect :=
  match d with
  | .horizontal =>
    { x := area.x + area.width * i / n
      y := area.y
      width := area.width * (i + 1) / n - area.width * i / n
      height := area.height }
  | .vertical =>
    { x := area.x
      y := area.y + area.height * i / n
      width := area.width
      height := area.height * (i + 1) / n - area.height * i / n }

/-- All `n` regions of `Container::grid(direction, n)`'s layout split of
    `area`, in order. -/
def splitRects (d : Direction) (area : Rect) (n : Nat) : List Rect :=
  (List.range n).map (regionAt d area n)

/-- The regions `impl WidgetRef for Container<T>` computes in src/ui.rs:
    `Self::grid(Direction::Horizontal, cols).split(area)` with
    `cols = self.elements.len()` — the direction is hardcoded horizontal. -/
def containerRegions (c : Container T) (area : Rect) : List Rect :=
  splitRects .horizontal area c.elements.length

/-- The child-render invocations of `render_ref` in src/ui.rs: `for (i,
    child) in self.elements.iter().enumerate() {
    child.render_ref(layout[i], buf) }`, i.e. child `i` paired with the
    `i`-th computed region. -/
def containerRenderCalls (c : Container T) (area : Rect) : List (T × Rect) :=
  c.elements.enum.map
    (fun p => (p.2, (containerRegions c area).getD p.1 ⟨0, 0, 0, 0⟩))

/-- The full `render_ref` of `Container<T>` in src/ui.rs, parametrized by
    the children's own render function: performs the render calls in order
    on the buffer. -/
def Container.render_ref (render : T → Rect → Buffer → Buffer)
    (c : Container T) (area : Rect) (buf : Buffer) : Buffer :=
  (containerRenderCalls c area).foldl (fun b p => render p.1 p.2 b) buf

/-! ## Session state machine (spec-modelled: the `game::engine` module is
    declared in src/game/mod.rs but its file is not under src/) -/

/-- Modelled from the spec: the per-current-card reveal states of the
    session state machine (`FrontShown`, `BackShown`). -/
inductive Phase where
  | frontShown
  | backShown
deriving DecidableEq

/-- Modelled from the spec: the in-progress session data — the current
    card's `Progress`, the reveal phase, the already-finalized `Progress`
    values, and the sequencer holding the remaining cards. -/
structure ActiveSession (T : Type) where
  current : Progress T
  phase : Phase
  doneCards : List (Progress T)
  sequencer : Linear T

/-- Modelled from the spec: a session is in progress or finished; a
    finished session carries the finalized `Progress` values from which the
    Hit/Miss summary is derived. -/
inductive Session (T : Type) where
  | active (s : ActiveSession T)
  | finishedAt (summary : List (Progress T))

/-- Modelled from the spec: the input actions the session controller
    consumes. -/
inductive SessionAction where
  | revealAct
  | scoreAct (outcome : Score)
  | quitAct

/-- Modelled from the spec: the session controller's transition function.
    Reveal: `FrontShown → BackShown`, idempotent on `BackShown`.
    Score(outcome): only legal from `BackShown` — it finalizes the current
    card's `Progress` and advances via the sequencer (entering `FrontShown`
    on a new card, or `Finished` on exhaustion); from `FrontShown` the
    action is silently ignored and nothing is finalized. Quit: terminates,
    discarding the in-flight unscored `Progress`. -/
def Session.step : Session T → SessionAction → Session T
  | .active s, .revealAct => .active { s with phase := .backShown }
  | .active s, .scoreAct outcome =>
    match s.phase with
    | .frontShown => .active s
    | .backShown =>
      let scored : Progress T := { s.current with score := some outcome }
      match s.sequencer.next with
      | some (card, seq2) =>
        .active { current := { item := card, score := none }
                  phase := .frontShown
                  doneCards := s.doneCards ++ [scored]
                  sequencer := seq2 }
      | none => .finishedAt (s.doneCards ++ [scored])
  | .active s, .quitAct => .finishedAt s.doneCards
  | .finishedAt l, _ => .finishedAt l

/-! ## Helper lemmas -/

/-- Any number of further `reveal` calls after the first leaves a fresh
    card's view in the fully-revealed state. -/
theorem reveal_iterate (f b : String) (k : Nat) :
    CardSide.reveal^[k + 1] (CardSide.new f b) =
      { deck_title := none, front := f, back := b, revealed := true } := by
  induction k with
  | zero => rfl
  | succ n ih =>
    rw [Function.iterate_succ_apply', ih]
    rfl

/-- Driving a `Linear` sequencer built from `l` to exhaustion yields
    exactly `l`. -/
theorem Linear.yields_new (l : List α) : Linear.yields (Linear.new l) = l := by
  induction l with
  | nil => simp [Linear.new, Linear.yields]
  | cons c rest ih =>
    simpa [Linear.new, Linear.yields] using ih

/-- After `k` produce-next calls the sequencer holds the cards past the
    first `k`. -/
theorem Linear.consume_new (l : List α) (k : Nat) :
    Linear.consume (Linear.new l) k = ⟨l.drop k⟩ := by
  induction k generalizing l with
  | zero => rfl
  | succ n ih =>
    cases l with
    | nil => simp [Linear.new, Linear.consume, Linear.next]
    | cons c rest => simpa [Linear.new, Linear.consume, Linear.next] using ih rest

/-- The card a produce-next call yields is the head of the held list. -/
theorem Linear.next_map_fst (l : List α) :
    (Linear.next ⟨l⟩).map Prod.fst = l.head? := by
  cases l <;> rfl

/-! ## Claim theorems -/

/-- C1: for a card view over a card with front `f` and back `b`, the
    displayed content is `f` while not revealed, `b` after exactly one
    Reveal, and stays `b` under any further Reveal calls. -/
theorem C1_card_view_flip_law (f b : String) (k : Nat) :
    (CardSide.new f b).displayedContent = f ∧
    ((CardSide.new f b).reveal).displayedContent = b ∧
    (CardSide.reveal^[k + 1] (CardSide.new f b)).displayedContent = b := by
  refine ⟨rfl, rfl, ?_⟩
  rw [reveal_iterate]
  rfl

/-- C2: a Linear sequence over any collection `l` yields exactly the cards
    of `l` in original order, the `k`-th produce-next call yields the
    `k`-th card (and signals exhaustion, `none`, exactly past the end — in
    particular immediately on an empty collection), and after `l.length`
    yields the sequencer is exhausted. -/
theorem C2_linear_sequence (l : List α) :
    Linear.yields (Linear.new l) = l ∧
    (∀ k, ((Linear.consume (Linear.new l) k).next).map Prod.fst = l[k]?) ∧
    (Linear.consume (Linear.new l) l.length).next = none := by
  refine ⟨Linear.yields_new l, fun k => ?_, ?_⟩
  · rw [Linear.consume_new, Linear.next_map_fst, List.head?_drop]
  · rw [Linear.consume_new, List.drop_length]
    rfl

/-- C3: a Score action received while the session's phase is `FrontShown`
    is silently ignored: the session state is entirely unchanged — in
    particular the phase stays `FrontShown` and no `Progress` value is
    finalized. -/
theorem C3_score_before_reveal_ignored (s : ActiveSession T) (outcome : Score)
    (h : s.phase = .frontShown) :
    Session.step (.active s) (.scoreAct outcome) = .active s ∧
    (∀ s2, Session.step (.active s) (.scoreAct outcome) = .active s2 →
      s2.phase = .frontShown ∧ s2.doneCards = s.doneCards) := by
  have hstep : Session.step (.active s) (.scoreAct outcome) = .active s := by
    show (match s.phase with
      | Phase.frontShown => Session.active s
      | Phase.backShown => _) = Session.active s
    rw [h]
  refine ⟨hstep, fun s2 h2 => ?_⟩
  rw [hstep] at h2
  cases h2
  exact ⟨h, rfl⟩

/-- Witness for C3: the score-while-front-shown rejection at a concrete
    session over a one-card sequencer. -/
theorem C3_score_before_reveal_ignored_witness :
    Session.step
      (.active { current := { item := "Foo", score := none }
                 phase := .frontShown
                 doneCards := []
                 sequencer := Linear.new ["Bizz"] })
      (.scoreAct .hit) =
    .active { current := { item := "Foo", score := none }
              phase := .frontShown
              doneCards := []
              sequencer := Linear.new ["Bizz"] } :=
  (C3_score_before_reveal_ignored
    { current := { item := "Foo", score := none }
      phase := .frontShown
      doneCards := []
      sequencer := Linear.new ["Bizz"] } .hit rfl).1

/-- C7: `has_score` is true exactly when `score` returns `some`; both
    operations leave the `Progress` value unchanged (they are pure `&self`
    methods, the only operations `Progress` has, so a stored score is never
    changed or reassigned by any of them). -/
theorem C7_progress_score_ops (T : Type) (p : Progress T) :
    (p.has_score = true ↔ ∃ s, p.score_fn = some s) ∧
    (∀ op, (Progress.runOp op p).2 = p) := by
  constructor
  · cases h : p.score <;> simp [Progress.has_score, Progress.score_fn, h]
  · intro op
    cases op <;> rfl

/-- Telescoping sum of consecutive differences of a monotone `Nat`
    function. -/
theorem sum_range_succ_sub (g : Nat → Nat) (hg : ∀ i j, i ≤ j → g i ≤ g j)
    (n : Nat) :
    ((List.range n).map (fun i => g (i + 1) - g i)).sum = g n - g 0 := by
  induction n with
  | zero => simp
  | succ m ih =>
    rw [List.range_succ, List.map_append, List.sum_append, ih]
    have h1 : g 0 ≤ g m := hg 0 m (Nat.zero_le m)
    have h2 : g m ≤ g (m + 1) := hg m (m + 1) (Nat.le_succ m)
    simp only [List.map_cons, List.map_nil, List.sum_cons, List.sum_nil]
    omega

/-- The `Ratio(1, n)` segment lengths sum exactly to the split length. -/
theorem ratioSplit_sum (w n : Nat) (hn : 0 < n) : (ratioSplit w n).sum = w := by
  have hmono : ∀ i j, i ≤ j → w * i / n ≤ w * j / n := fun i j hij =>
    Nat.div_le_div_right (Nat.mul_le_mul_left w hij)
  have h := sum_range_succ_sub (fun i => w * i / n) hmono n
  simp only [ratioSplit]
  rw [h]
  simp [Nat.mul_div_left w hn]

/-- Each `Ratio(1, n)` segment length is `w / n` or `w / n + 1`. -/
theorem ratioSplit_part_bounds (w n i : Nat) (hn : 0 < n) :
    w / n ≤ w * (i + 1) / n - w * i / n ∧
    w * (i + 1) / n - w * i / n ≤ w / n + 1 := by
  have hmul : w * (i + 1) = w * i + w := by ring
  have hadd := Nat.add_div (a := w * i) (b := w) hn
  rw [hmul, hadd]
  by_cases hc : n ≤ w * i % n + w % n
  · rw [if_pos hc]
    generalize w * i / n = q
    generalize w / n = d
    omega
  · rw [if_neg hc]
    generalize w * i / n = q
    generalize w / n = d
    omega

/-- Membership form of the segment-length bounds. -/
theorem ratioSplit_mem_bounds (w n : Nat) (hn : 0 < n) (p : Nat)
    (hp : p ∈ ratioSplit w n) : w / n ≤ p ∧ p ≤ w / n + 1 := by
  simp only [ratioSplit, List.mem_map, List.mem_range] at hp
  obtain ⟨i, _, rfl⟩ := hp
  exact ratioSplit_part_bounds w n i hn

/-- The widths of a `Container`'s computed regions are exactly the
    `Ratio(1, n)` segment lengths of the area's width. -/
theorem containerRegions_widths (c : Container T) (area : Rect) :
    (containerRegions c area).map Rect.width =
      ratioSplit area.width c.elements.length := by
  unfold containerRegions splitRects ratioSplit
  rw [List.map_map]
  rfl

/-- C4: for a `Container` with at least one child rendered into an area of
    width `W`, the widths of the produced regions sum exactly to `W` and no
    two of them differ by more than one. -/
theorem C4_container_partition (c : Container T) (area : Rect)
    (h : 1 ≤ c.elements.length) :
    ((containerRegions c area).map Rect.width).sum = area.width ∧
    ∀ r1 ∈ containerRegions c area, ∀ r2 ∈ containerRegions c area,
      r1.width ≤ r2.width + 1 := by
  have hn : 0 < c.elements.length := h
  constructor
  · rw [containerRegions_widths, ratioSplit_sum _ _ hn]
  · intro r1 h1 r2 h2
    have hw1 : r1.width ∈ ratioSplit area.width c.elements.length := by
      rw [← containerRegions_widths c area]
      exact List.mem_map_of_mem _ h1
    have hw2 : r2.width ∈ ratioSplit area.width c.elements.length := by
      rw [← containerRegions_widths c area]
      exact List.mem_map_of_mem _ h2
    have b1 := ratioSplit_mem_bounds _ _ hn _ hw1
    have b2 := ratioSplit_mem_bounds _ _ hn _ hw2
    omega

/-- Witness for C4: the partition law evaluated for three children over a
    width-10 area (widths produced there: 3, 3 and 4). -/
theorem C4_container_partition_witness :
    ((containerRegions (Container.mk [(), (), ()] : Container Unit)
        ⟨0, 0, 10, 2⟩).map Rect.width).sum = 10 ∧
    ∀ r1 ∈ containerRegions (Container.mk [(), (), ()] : Container Unit)
        ⟨0, 0, 10, 2⟩,
      ∀ r2 ∈ containerRegions (Container.mk [(), (), ()] : Container Unit)
        ⟨0, 0, 10, 2⟩,
        r1.width ≤ r2.width + 1 :=
  C4_container_partition (Container.mk [(), (), ()]) ⟨0, 0, 10, 2⟩
    (by decide)

/-- C5 counterexample: the claim says the area is partitioned "along the
    Container's configured axis (horizontal or vertical)", but
    `render_ref` in src/ui.rs hardcodes `Direction::Horizontal` and the
    `Container` struct has no axis field: for a concrete two-child
    container over a 4×2 area the produced regions are the horizontal
    split and differ from the vertical split a vertically-configured
    container would have to produce. -/
theorem C5_counterexample_no_vertical_axis :
    containerRegions (Container.mk [(), ()] : Container Unit) ⟨0, 0, 4, 2⟩ =
      splitRects .horizontal ⟨0, 0, 4, 2⟩ 2 ∧
    containerRegions (Container.mk [(), ()] : Container Unit) ⟨0, 0, 4, 2⟩ ≠
      splitRects .vertical ⟨0, 0, 4, 2⟩ 2 := by
  exact ⟨rfl, by decide⟩

/-- C5 (amended): rendering a `Container` always partitions the area
    horizontally (the axis is hardcoded, not configurable) into one region
    per child — the `i`-th child, in list order, is rendered into the
    `i`-th horizontal region. -/
theorem C5_children_into_ordered_regions (c : Container T) (area : Rect)
    (i : Nat) :
    (containerRenderCalls c area).length = c.elements.length ∧
    (containerRenderCalls c area)[i]? =
      (c.elements[i]?).map
        (fun e => (e, regionAt .horizontal area c.elements.length i)) := by
  constructor
  · simp [containerRenderCalls]
  · simp only [containerRenderCalls, List.getElem?_map, List.getElem?_enum,
      Option.map_map]
    cases h : c.elements[i]? with
    | none => rfl
    | some e =>
      have hi : i < c.elements.length := by
        rw [List.getElem?_eq_some] at h
        exact h.1
      simp only [Option.map_some', Function.comp]
      have hreg : (containerRegions c area).getD i ⟨0, 0, 0, 0⟩ =
          regionAt .horizontal area c.elements.length i := by
        rw [List.getD_eq_getElem?_getD]
        simp [containerRegions, splitRects, List.getElem?_map,
          List.getElem?_range hi]
      rw [hreg]

/-- C9: rendering a `Container` with zero children terminates and leaves
    the buffer unchanged: no region is produced and no child render call is
    made. -/
theorem C9_empty_container_render (T : Type)
    (render : T → Rect → Buffer → Buffer) (area : Rect) (buf : Buffer) :
    Container.render_ref render (Container.defaultC : Container T) area buf
        = buf ∧
    containerRenderCalls (Container.defaultC : Container T) area = [] ∧
    containerRegions (Container.defaultC : Container T) area = [] :=
  ⟨rfl, rfl, rfl⟩

/-- C8: `CardSide::reveal` sets the `revealed` flag to true and leaves the
    `front`, `back` and `deck_title` fields unchanged. -/
theorem C8_reveal_frame (c : CardSide) :
    c.reveal.revealed = true ∧
    c.reveal.front = c.front ∧
    c.reveal.back = c.back ∧
    c.reveal.deck_title = c.deck_title :=
  ⟨rfl, rfl, rfl, rfl⟩

/-- For a bordered and centered `Text`, the render is: content drawn into
    the centered one-line rectangle first, the full-area block drawn over
    it second — the order the `impl Widget for Text` code performs them
    in. -/
theorem renderW_eq (t : Text) (hb : t.bordered = true) (hc : t.centered = true)
    (area : Rect) (buf : Buffer) :
    t.renderW area buf =
      renderBlock area t.border_title
        (renderStringInto t.text (center area (textWidth t.text) 1) buf) := by
  funext u v
  simp [Text.renderW, hb, hc]

/-- C6 counterexample, refuting the claim at explicit inputs in each of
    the two respects the amendment touches. Clipping: for `Text("Hi")`
    with bordered and centered set, rendered into a 10×1 area, the cell
    (4, 0) belongs to the centered content sub-rectangle (so the claim
    says it shows the content character `H`), yet the border — drawn after
    the content — overwrites it with a border glyph: the two options do
    clip each other on overlap. Exact dimensions: the claim's "exactly the
    measured content width and exactly one line of height" also fails —
    into a 1×3 area the content sub-rectangle has width 1, not the
    measured width 2, and into a 10×0 area it has height 0, not one line:
    both dimensions are clamped to the area. -/
theorem C6_counterexample_content_clipped :
    (centerContentCell ((Text.new "Hi").setBordered [] |>.setCentered)
        ⟨0, 0, 10, 1⟩ 4 0 = true ∧
      Text.renderW ((Text.new "Hi").setBordered [] |>.setCentered)
        ⟨0, 0, 10, 1⟩ emptyBuf 4 0 = Cell.border ∧
      Cell.border ≠ Cell.char 'H') ∧
    (textWidth "Hi" = 2 ∧
      (center ⟨0, 0, 1, 3⟩ (textWidth "Hi") 1).width = 1 ∧
      (center ⟨0, 0, 1, 3⟩ (textWidth "Hi") 1).width ≠ textWidth "Hi") ∧
    ((center ⟨0, 0, 10, 0⟩ (textWidth "Hi") 1).height = 0 ∧
      (center ⟨0, 0, 10, 0⟩ (textWidth "Hi") 1).height ≠ 1) := by
  decide

/-- C6 (amended): for a bordered and centered `Text` rendered into any
    area, the content sub-rectangle has the measured content width and one
    line of height (each clamped to the area) and is centered in the area;
    the border frames the complete area (with its title if present) and is
    never clipped by the content, since it is drawn after it; a content
    cell renders its content character whenever it does not lie on the
    border frame, while content cells on the frame are overwritten by the
    border; all remaining cells are untouched. -/
theorem C6_text_border_center_compose (t : Text) (area : Rect) (buf : Buffer)
    (x y : Nat) (hb : t.bordered = true) (hc : t.centered = true) :
    (center area (textWidth t.text) 1).width =
      min (textWidth t.text) area.width ∧
    (center area (textWidth t.text) 1).height = min 1 area.height ∧
    (area.isFramePt x y = true →
      t.renderW area buf x y = blockCellAt area t.border_title x y) ∧
    (area.isFramePt x y = false → centerContentCell t area x y = true →
      t.renderW area buf x y =
        Cell.char
          (t.text.data.getD (x - (center area (textWidth t.text) 1).x) ' ')) ∧
    (area.isFramePt x y = false → centerContentCell t area x y = false →
      t.renderW area buf x y = buf x y) := by
  refine ⟨rfl, rfl, ?_, ?_, ?_⟩
  · intro hf
    rw [renderW_eq t hb hc area buf]
    simp [renderBlock, hf]
  · intro hf hcc
    simp only [centerContentCell] at hcc
    rw [renderW_eq t hb hc area buf]
    simp only [renderBlock, renderStringInto]
    rw [hf, hcc]
    simp
  · intro hf hcc
    simp only [centerContentCell] at hcc
    rw [renderW_eq t hb hc area buf]
    simp only [renderBlock, renderStringInto]
    rw [hf, hcc]
    simp

/-- Witness for C6: the spec's own example — `Text("Hi")`, bordered and
    centered, into a 10×3 area: the cell (4, 1) is off the frame and in
    the centered content row, and renders the content character `H`. -/
theorem C6_text_border_center_compose_witness :
    Text.renderW ((Text.new "Hi").setBordered [] |>.setCentered)
        ⟨0, 0, 10, 3⟩ emptyBuf 4 1 = Cell.char 'H' :=
  (C6_text_border_center_compose
      ((Text.new "Hi").setBordered [] |>.setCentered) ⟨0, 0, 10, 3⟩ emptyBuf
      4 1 rfl rfl).2.2.2.1 (by decide) (by decide)

/-- The `Text` a `CardSide` builds, written as one record: bordered and
    centered are always set, the border title is exactly the deck title,
    the payload is the displayed content. -/
theorem cardSide_toText_eq (c : CardSide) :
    c.toText =
      { text := c.displayedContent, centered := true, bordered := true,
        border_title := c.deck_title, border_styles := [] } := by
  cases h : c.deck_title <;>
    simp [CardSide.toText, Text.new, Text.defaultT, Text.setBordered,
      Text.setCentered, Text.with_border_title, h]

/-- Dropping the deck title does not change the displayed content. -/
theorem displayedContent_title_none (c : CardSide) :
    CardSide.displayedContent { c with deck_title := none } =
      c.displayedContent :=
  rfl

/-- C10: every `CardSide` render builds a bordered and centered `Text`
    whose border title is exactly the deck title and whose payload is the
    displayed content — whether or not a title is present — and a present
    title changes the rendered output only on the area's top (title) row
    of the border frame. -/
theorem C10_cardside_bordered_centered_titled (c : CardSide) :
    c.toText.bordered = true ∧
    c.toText.centered = true ∧
    c.toText.border_title = c.deck_title ∧
    c.toText.text = c.displayedContent ∧
    ∀ area buf x y, y ≠ area.y →
      c.renderW area buf x y =
        CardSide.renderW { c with deck_title := none } area buf x y := by
  refine ⟨?_, ?_, ?_, ?_, ?_⟩
  · rw [cardSide_toText_eq]
  · rw [cardSide_toText_eq]
  · rw [cardSide_toText_eq]
  · rw [cardSide_toText_eq]
  · intro area buf x y hy
    simp only [CardSide.renderW, cardSide_toText_eq, displayedContent_title_none]
    rw [renderW_eq _ rfl rfl, renderW_eq _ rfl rfl]
    simp only [renderBlock]
    cases hd : c.deck_title with
    | none => rfl
    | some s =>
      by_cases hf : area.isFramePt x y = true
      · simp [hf, blockCellAt, hy]
      · simp only [Bool.not_eq_true] at hf
        simp [hf]

/-- Witness for C10: at a concrete titled card side, a cell off the top
    row renders the same as without the title. -/
theorem C10_cardside_bordered_centered_titled_witness :
    CardSide.renderW ((CardSide.new "f" "b").with_title "T") ⟨0, 0, 6, 3⟩
        emptyBuf 2 1 =
      CardSide.renderW
        { (CardSide.new "f" "b").with_title "T" with deck_title := none }
        ⟨0, 0, 6, 3⟩ emptyBuf 2 1 :=
  (C10_cardside_bordered_centered_titled
      ((CardSide.new "f" "b").with_title "T")).2.2.2.2 ⟨0, 0, 6, 3⟩ emptyBuf
    2 1 (by decide)

end Kadeu
